import Mathlib

/-!
Verification of the funhouse-mirror curve-to-distortion pipeline.

The two core components are embedded over exact rationals:

* `convertCurveDataToSegments` — the curve normalizer: converts a user-drawn
  piecewise-linear curve (canvas pixel space) into physical-space
  quadratic-Bezier-style depth segments for the ray-traced renderer.

* `applyDistortion` / `warp` — the displacement mapper: for each output pixel
  of a frame, computes a source pixel from the curve and the rotation
  (0/90/180/270 degrees) by inverse mapping, copying all four RGBA channels.
  `warp` also models the caller guard: when the curve is absent or has no
  segments the frame is drawn directly (identity copy).

Numbers are modelled as rationals; canvas coordinates, physical coordinates
and the per-pixel interpolation all use exact arithmetic.  Frames are lists
of channel values indexed by `(y * width + x) * 4 + channel`, matching the
RGBA layout of the image data buffers; the freshly allocated output buffer
is zero-initialized, so a pixel the mapper skips keeps channel value `0`.
-/

/-- Canvas bounds of the curve editor: `x` is the centerline column,
`yTop` and `yBottom` bound the vertical extent, in canvas pixels. -/
structure CanvasBounds where
  x : ℚ
  yTop : ℚ
  yBottom : ℚ
deriving DecidableEq

/-- One piecewise-linear piece of the user-drawn curve, in canvas pixels. -/
structure LineSegment where
  x1 : ℚ
  y1 : ℚ
  x2 : ℚ
  y2 : ℚ
deriving DecidableEq

/-- The user-drawn curve: bounds plus an ordered list of line segments.
The segment list itself may be absent (the JavaScript value can lack the
field), which both components treat like an empty curve. -/
structure CurveData where
  bounds : CanvasBounds
  lineSegments : Option (List LineSegment)
deriving DecidableEq

/-- A quadratic-Bezier-style depth profile over a vertical physical-space
interval, as consumed by the ray-traced renderer. -/
structure PhysicalSegment where
  yMin : ℚ
  yMax : ℚ
  z0 : ℚ
  z1 : ℚ
  z2 : ℚ
deriving DecidableEq

/-- The default flat-mirror segment returned for an absent or empty curve. -/
def defaultSegment : PhysicalSegment :=
  { yMin := -0.4, yMax := 0.4, z0 := 0, z1 := 0, z2 := 0 }

/-- Conversion of a single line segment to physical coordinates, following
the body of the `map` inside `convertCurveDataToSegments`: the `y`
coordinates are mapped linearly from `[yTop, yBottom]` onto
`[-physicalHalfHeight, physicalHalfHeight]`, the `x` coordinates are mapped
to depths, `z0`/`z2` are oriented so that `z0` belongs to `yMin`, and the
control value `z1` is the midpoint. -/
def convertSegment (bounds : CanvasBounds) (seg : LineSegment) : PhysicalSegment :=
  let canvasHeight := bounds.yBottom - bounds.yTop
  let canvasWidth := bounds.x
  let physicalHalfHeight : ℚ := 2.0
  let physicalMaxDepth : ℚ := 1.0
  let y1Physical := ((seg.y1 - bounds.yTop) / canvasHeight) * (2 * physicalHalfHeight) - physicalHalfHeight
  let y2Physical := ((seg.y2 - bounds.yTop) / canvasHeight) * (2 * physicalHalfHeight) - physicalHalfHeight
  let yMin := min y1Physical y2Physical
  let yMax := max y1Physical y2Physical
  let x1Depth := -((bounds.x - seg.x1) / canvasWidth * physicalMaxDepth)
  let x2Depth := -((bounds.x - seg.x2) / canvasWidth * physicalMaxDepth)
  let z0 := if y1Physical ≤ y2Physical then x1Depth else x2Depth
  let z2 := if y1Physical ≤ y2Physical then x2Depth else x1Depth
  let z1 := (z0 + z2) / 2
  { yMin := yMin, yMax := yMax, z0 := z0, z1 := z1, z2 := z2 }

/-- The curve normalizer `convertCurveDataToSegments`: absent curve data,
absent segment list, or an empty segment list all yield the single default
flat-mirror segment; otherwise each line segment is converted in order. -/
def convertCurveDataToSegments (curveData : Option CurveData) : List PhysicalSegment :=
  match curveData with
  | none => [defaultSegment]
  | some cd =>
    match cd.lineSegments with
    | none => [defaultSegment]
    | some segs =>
      if segs.length = 0 then [defaultSegment]
      else segs.map (convertSegment cd.bounds)

/-- The interval test of the per-pixel segment scan: whether `curveY` lies in
`[min(y1, y2), max(y1, y2)]` of a segment. -/
def segContains (seg : LineSegment) (curveY : ℚ) : Prop :=
  min seg.y1 seg.y2 ≤ curveY ∧ curveY ≤ max seg.y1 seg.y2

instance (seg : LineSegment) (curveY : ℚ) : Decidable (segContains seg curveY) := by
  unfold segContains
  exact inferInstance

/-- Linear interpolation of the curve `x` at `curveY` within a matched
segment, with the degenerate denominator `y2 - y1 == 0` replaced by `1`
(the JavaScript expression `seg.y2 - seg.y1 || 1`). -/
def segInterp (seg : LineSegment) (curveY : ℚ) : ℚ :=
  let t := (curveY - seg.y1) / (if seg.y2 - seg.y1 = 0 then 1 else seg.y2 - seg.y1)
  seg.x1 + t * (seg.x2 - seg.x1)

/-- The per-pixel segment scan of `applyDistortion`: the first segment in
input order whose interval contains `curveY` is interpolated; if no segment
matches, the centerline `boundsX` is returned. -/
def findCurveX (segs : List LineSegment) (boundsX curveY : ℚ) : ℚ :=
  match segs with
  | [] => boundsX
  | seg :: rest =>
    if segContains seg curveY then segInterp seg curveY
    else findCurveX rest boundsX curveY

/-- Source-pixel computation of `applyDistortion` for the output pixel
`(x, y)` of a `w × h` frame: each rotation branch derives `curveY` from the
rotation-dependent scan axis, scans the segments, turns the curve offset
into a pixel displacement, and floors the displaced coordinate.  A rotation
outside `{0, 90, 180, 270}` takes none of the branches, leaving
`(sourceX, sourceY) = (x, y)`. -/
def sourceCoords (bounds : CanvasBounds) (segs : List LineSegment) (rot : Int)
    (w h x y : ℕ) : Int × Int :=
  let yRange := bounds.yBottom - bounds.yTop
  let xRange := bounds.x
  if rot = 0 then
    let curveY := bounds.yTop + ((y : ℚ) / (h : ℚ)) * yRange
    let curveX := findCurveX segs bounds.x curveY
    let offset := (bounds.x - curveX) / xRange
    let disp := offset * (w : ℚ) * 0.5
    (⌊(x : ℚ) - disp⌋, (y : Int))
  else if rot = 90 then
    let curveY := bounds.yTop + ((x : ℚ) / (w : ℚ)) * yRange
    let curveX := findCurveX segs bounds.x curveY
    let offset := (bounds.x - curveX) / xRange
    let disp := offset * (h : ℚ) * 0.5
    ((x : Int), ⌊(y : ℚ) - disp⌋)
  else if rot = 180 then
    let curveY := bounds.yTop + (((h : ℚ) - (y : ℚ)) / (h : ℚ)) * yRange
    let curveX := findCurveX segs bounds.x curveY
    let offset := (bounds.x - curveX) / xRange
    let disp := offset * (w : ℚ) * 0.5
    (⌊(x : ℚ) + disp⌋, (y : Int))
  else if rot = 270 then
    let curveY := bounds.yTop + (((w : ℚ) - (x : ℚ)) / (w : ℚ)) * yRange
    let curveX := findCurveX segs bounds.x curveY
    let offset := (bounds.x - curveX) / xRange
    let disp := offset * (h : ℚ) * 0.5
    ((x : Int), ⌊(y : ℚ) + disp⌋)
  else ((x : Int), (y : Int))

/-- An RGBA frame buffer: `data` holds the channel values in row-major RGBA
order, channel `c` of pixel `(x, y)` at index `(y * width + x) * 4 + c`. -/
structure Frame where
  width : ℕ
  height : ℕ
  data : List ℕ
deriving DecidableEq

/-- The bounds check guarding the source-pixel read: `0 ≤ sourceX < w` and
`0 ≤ sourceY < h`. -/
def inFrame (w h : ℕ) (sx sy : Int) : Prop :=
  0 ≤ sx ∧ sx < (w : Int) ∧ 0 ≤ sy ∧ sy < (h : Int)

instance (w h : ℕ) (sx sy : Int) : Decidable (inFrame w h sx sy) := by
  unfold inFrame
  exact inferInstance

/-- Channel `i % 4` of output pixel `(x, y) = ((i / 4) % w, (i / 4) / w)` of
the warped frame: the source coordinates are computed, and when they pass
the bounds check the corresponding source channel is copied; otherwise the
output channel keeps the zero of the freshly allocated buffer. -/
def outChannel (frame : Frame) (bounds : CanvasBounds) (segs : List LineSegment)
    (rot : Int) (i : ℕ) : ℕ :=
  let w := frame.width
  let h := frame.height
  let c := i % 4
  let x := (i / 4) % w
  let y := (i / 4) / w
  let sc := sourceCoords bounds segs rot w h x y
  if inFrame w h sc.1 sc.2 then
    frame.data.getD (((sc.2 * (w : Int) + sc.1) * 4).toNat + c) 0
  else 0

/-- The displacement mapper `applyDistortion`: every channel of the output
buffer is produced by `outChannel`; the double pixel loop of the source
writes each output index `(y * w + x) * 4 + c` exactly once, so the
finished buffer is exactly this positional map. -/
def applyDistortion (frame : Frame) (bounds : CanvasBounds) (segs : List LineSegment)
    (rot : Int) : Frame :=
  { width := frame.width
    height := frame.height
    data := (List.range (frame.height * frame.width * 4)).map (outChannel frame bounds segs rot) }

/-- One warped frame as produced by `render`: when the curve is absent or has
no line segments the video frame is drawn directly (identity copy), otherwise
`applyDistortion` runs with the current rotation. -/
def warp (frame : Frame) (curveData : Option CurveData) (rot : Int) : Frame :=
  match curveData with
  | some curve =>
    match curve.lineSegments with
    | some segs =>
      if 0 < segs.length then applyDistortion frame curve.bounds segs rot
      else frame
    | none => frame
  | none => frame

/-- Claim C2: normalizing an absent curve, a curve with an absent segment
list, and a curve with an empty segment list all return exactly the
one-element default list with yMin = -0.4, yMax = 0.4 and zero depths. -/
theorem normalize_flat_default :
    convertCurveDataToSegments none
        = [{ yMin := -0.4, yMax := 0.4, z0 := 0, z1 := 0, z2 := 0 }]
    ∧ (∀ bounds : CanvasBounds,
        convertCurveDataToSegments (some { bounds := bounds, lineSegments := none })
          = [{ yMin := -0.4, yMax := 0.4, z0 := 0, z1 := 0, z2 := 0 }])
    ∧ (∀ bounds : CanvasBounds,
        convertCurveDataToSegments (some { bounds := bounds, lineSegments := some [] })
          = [{ yMin := -0.4, yMax := 0.4, z0 := 0, z1 := 0, z2 := 0 }]) := by
  refine ⟨rfl, fun bounds => rfl, fun bounds => rfl⟩

/-- Evaluation of the normalizer on the scenario input of the spec. -/
lemma scenario_conversion_eval :
    convertCurveDataToSegments
        (some { bounds := { x := 400, yTop := 50, yBottom := 550 }
                lineSegments := some [{ x1 := 400, y1 := 50, x2 := 300, y2 := 550 }] })
      = [{ yMin := -2, yMax := 2, z0 := 0, z1 := -(1 / 8), z2 := -(1 / 4) }] := by
  simp only [convertCurveDataToSegments, convertSegment, List.length_cons, List.length_nil,
    List.map_cons, List.map_nil]
  norm_num [min_def, max_def]

/-- Claim C3: for bounds x = 400, yTop = 50, yBottom = 550 and the single
segment (400, 50) – (300, 550), the normalizer returns exactly one physical
segment yMin = -2, yMax = 2, z0 = 0, z1 = -1/8, z2 = -1/4, in exact
arithmetic. -/
theorem normalize_scenario_400_50_550 :
    convertCurveDataToSegments
        (some { bounds := { x := 400, yTop := 50, yBottom := 550 }
                lineSegments := some [{ x1 := 400, y1 := 50, x2 := 300, y2 := 550 }] })
      = [{ yMin := -2, yMax := 2, z0 := 0, z1 := -(1 / 8), z2 := -(1 / 4) }] :=
  scenario_conversion_eval

/-- Claim C8: every physical segment produced by normalizing a curve with at
least one line segment has its control value z1 exactly equal to the
arithmetic mean of the endpoint depths z0 and z2. -/
theorem normalize_midpoint_invariant (bounds : CanvasBounds) (segs : List LineSegment)
    (s : PhysicalSegment) (hne : segs ≠ [])
    (hs : s ∈ convertCurveDataToSegments (some { bounds := bounds, lineSegments := some segs })) :
    s.z1 = (s.z0 + s.z2) / 2 := by
  have hs2 : s ∈ (if segs.length = 0 then [defaultSegment]
      else segs.map (convertSegment bounds)) := hs
  rw [if_neg (by simpa using hne)] at hs2
  obtain ⟨t, ht, rfl⟩ := List.mem_map.mp hs2
  rfl

/-- Witness for C8 at the concrete scenario input. -/
theorem normalize_midpoint_invariant_witness :
    PhysicalSegment.z1 { yMin := -2, yMax := 2, z0 := 0, z1 := -(1 / 8), z2 := -(1 / 4) }
      = (PhysicalSegment.z0 { yMin := -2, yMax := 2, z0 := 0, z1 := -(1 / 8), z2 := -(1 / 4) }
          + PhysicalSegment.z2 { yMin := -2, yMax := 2, z0 := 0, z1 := -(1 / 8), z2 := -(1 / 4) }) / 2 :=
  normalize_midpoint_invariant { x := 400, yTop := 50, yBottom := 550 }
    [{ x1 := 400, y1 := 50, x2 := 300, y2 := 550 }]
    { yMin := -2, yMax := 2, z0 := 0, z1 := -(1 / 8), z2 := -(1 / 4) }
    (List.cons_ne_nil _ _) (by rw [scenario_conversion_eval]; exact List.mem_singleton.mpr rfl)

/-- Claim C5: when the matched segment has y2 = y1 the interpolation divides
by the substituted denominator 1, giving curveX = x1 + (curveY - y1) * (x2 - x1);
when y2 is different from y1 the parameter is the ordinary
(curveY - y1) / (y2 - y1). -/
theorem segInterp_degenerate_denominator (seg : LineSegment) (curveY : ℚ) :
    (seg.y2 = seg.y1 →
      segInterp seg curveY = seg.x1 + (curveY - seg.y1) * (seg.x2 - seg.x1))
    ∧ (seg.y2 ≠ seg.y1 →
      segInterp seg curveY
        = seg.x1 + ((curveY - seg.y1) / (seg.y2 - seg.y1)) * (seg.x2 - seg.x1)) := by
  constructor
  · intro h
    unfold segInterp
    rw [if_pos (by rw [h, sub_self]), div_one]
  · intro h
    unfold segInterp
    rw [if_neg (sub_ne_zero.mpr h)]

/-- Witness for C5: a degenerate horizontal segment and a regular segment. -/
theorem segInterp_degenerate_denominator_witness :
    segInterp { x1 := 1, y1 := 5, x2 := 9, y2 := 5 } 7 = 1 + (7 - 5) * (9 - 1)
    ∧ segInterp { x1 := 1, y1 := 5, x2 := 9, y2 := 9 } 7 = 1 + ((7 - 5) / (9 - 5)) * (9 - 1) :=
  ⟨(segInterp_degenerate_denominator { x1 := 1, y1 := 5, x2 := 9, y2 := 5 } 7).1 rfl,
   (segInterp_degenerate_denominator { x1 := 1, y1 := 5, x2 := 9, y2 := 9 } 7).2 (by norm_num)⟩

/-- Index decoding for the RGBA buffer layout: an index below h * w * 4
splits into a pixel column, a pixel row and a channel. -/
lemma index_decode (w h i : ℕ) (hi : i < h * w * 4) :
    (i / 4) % w < w ∧ (i / 4) / w < h
    ∧ ((i / 4) / w) * w + (i / 4) % w = i / 4
    ∧ (i / 4) * 4 + i % 4 = i ∧ i % 4 < 4 := by
  rcases Nat.eq_zero_or_pos w with hw | hw
  · subst hw
    simp at hi
  · have hp : i / 4 < h * w := (Nat.div_lt_iff_lt_mul (by norm_num)).mpr hi
    refine ⟨Nat.mod_lt _ hw, (Nat.div_lt_iff_lt_mul hw).mpr hp, ?_, ?_,
      Nat.mod_lt _ (by norm_num)⟩
    · rw [Nat.mul_comm]
      exact Nat.div_add_mod _ _
    · rw [Nat.mul_comm]
      exact Nat.div_add_mod i 4

/-- A positional map over the index range rebuilds a list when the generator
agrees with it at every index. -/
lemma map_range_eq_self (l : List ℕ) (n : ℕ) (f : ℕ → ℕ) (hlen : l.length = n)
    (hf : ∀ i, i < n → f i = l.getD i 0) :
    (List.range n).map f = l := by
  apply List.ext_getElem
  · simp [hlen]
  · intro i h1 h2
    simp only [List.getElem_map, List.getElem_range]
    rw [hf i (hlen ▸ h2), List.getD_eq_getElem l 0 h2]

/-- When every pixel of the frame sources from itself, the displacement
mapper rebuilds the input frame exactly. -/
lemma applyDistortion_eq_self (frame : Frame) (bounds : CanvasBounds)
    (segs : List LineSegment) (rot : Int)
    (hlen : frame.data.length = frame.height * frame.width * 4)
    (hsrc : ∀ x y : ℕ, x < frame.width → y < frame.height →
      sourceCoords bounds segs rot frame.width frame.height x y = ((x : Int), (y : Int))) :
    applyDistortion frame bounds segs rot = frame := by
  obtain ⟨w, h, data⟩ := frame
  simp only at hlen hsrc
  unfold applyDistortion
  simp only [Frame.mk.injEq, true_and]
  apply map_range_eq_self _ _ _ hlen
  intro i hi
  obtain ⟨hx, hy, hpix, hchan, hc4⟩ := index_decode w h i hi
  simp only [outChannel]
  rw [hsrc _ _ hx hy]
  dsimp only
  rw [if_pos ⟨Int.natCast_nonneg _, by exact_mod_cast hx,
    Int.natCast_nonneg _, by exact_mod_cast hy⟩]
  have harith : (((((i / 4) / w : ℕ) : Int) * ((w : ℕ) : Int)
      + (((i / 4) % w : ℕ) : Int)) * 4).toNat + i % 4 = i := by
    have hcast : ((((i / 4) / w : ℕ) : Int) * ((w : ℕ) : Int)
        + (((i / 4) % w : ℕ) : Int)) * 4
        = (((((i / 4) / w) * w + (i / 4) % w) * 4 : ℕ) : Int) := by
      push_cast
      ring
    rw [hcast, Int.toNat_natCast, hpix, hchan]
  rw [harith]

/-- Claim C1: warping any frame with a curve whose line-segment list is
empty is the identity at each rotation 0, 90, 180 and 270: the output frame
equals the input, every channel of every pixel unchanged. -/
theorem warp_empty_curve_identity (frame : Frame) (bounds : CanvasBounds) (r : Int)
    (hr : r = 0 ∨ r = 90 ∨ r = 180 ∨ r = 270) :
    warp frame (some { bounds := bounds, lineSegments := some [] }) r = frame := rfl

/-- Witness for C1 at rotation 90 on a concrete one-pixel frame. -/
theorem warp_empty_curve_identity_witness :
    warp { width := 1, height := 1, data := [10, 20, 30, 255] }
        (some { bounds := { x := 400, yTop := 50, yBottom := 550 }, lineSegments := some [] }) 90
      = { width := 1, height := 1, data := [10, 20, 30, 255] } :=
  warp_empty_curve_identity _ _ 90 (Or.inr (Or.inl rfl))

/-- Claim C10: a rotation outside 0, 90, 180 and 270 takes none of the four
rotation branches, so every pixel sources from itself and applyDistortion
returns an exact copy of the input frame. -/
theorem applyDistortion_unknown_rotation_identity (frame : Frame) (bounds : CanvasBounds)
    (segs : List LineSegment) (rot : Int)
    (h0 : rot ≠ 0) (h90 : rot ≠ 90) (h180 : rot ≠ 180) (h270 : rot ≠ 270)
    (hlen : frame.data.length = frame.height * frame.width * 4) :
    applyDistortion frame bounds segs rot = frame := by
  apply applyDistortion_eq_self frame bounds segs rot hlen
  intro x y hx hy
  simp [sourceCoords, h0, h90, h180, h270]

/-- Witness for C10 at rotation 45 on a concrete one-pixel frame. -/
theorem applyDistortion_unknown_rotation_identity_witness :
    applyDistortion { width := 1, height := 1, data := [10, 20, 30, 255] }
        { x := 400, yTop := 50, yBottom := 550 } [{ x1 := 1, y1 := 2, x2 := 3, y2 := 4 }] 45
      = { width := 1, height := 1, data := [10, 20, 30, 255] } :=
  applyDistortion_unknown_rotation_identity _ _ _ 45
    (by decide) (by decide) (by decide) (by decide) rfl

/-- With a nonempty segment list the caller guard passes and `warp` runs the
displacement mapper. -/
lemma warp_cons_segs (frame : Frame) (bounds : CanvasBounds) (s : LineSegment)
    (rest : List LineSegment) (rot : Int) :
    warp frame (some { bounds := bounds, lineSegments := some (s :: rest) }) rot
      = applyDistortion frame bounds (s :: rest) rot := by
  show (if 0 < (s :: rest).length then applyDistortion frame bounds (s :: rest) rot else frame)
      = applyDistortion frame bounds (s :: rest) rot
  rw [if_pos (by simp)]

/-- When the segment scan returns the centerline at the pixel's curveY, the
rotation-0 source coordinate of the pixel is the pixel itself. -/
lemma sourceCoords_zero_disp (bounds : CanvasBounds) (segs : List LineSegment)
    (w h x y : ℕ)
    (hfx : findCurveX segs bounds.x
      (bounds.yTop + ((y : ℚ) / (h : ℚ)) * (bounds.yBottom - bounds.yTop)) = bounds.x) :
    sourceCoords bounds segs 0 w h x y = ((x : Int), (y : Int)) := by
  simp [sourceCoords, hfx]

/-- A single segment lying on the centerline interpolates to the centerline
whether or not it matches. -/
lemma findCurveX_constant_x (bx yA yB cy : ℚ) :
    findCurveX [{ x1 := bx, y1 := yA, x2 := bx, y2 := yB }] bx cy = bx := by
  unfold findCurveX
  split
  · simp [segInterp]
  · rfl

/-- Claim C7: for a 640 by 480 frame and a single segment spanning the full
vertical range at constant x equal to the centerline, warp at rotation 0 is
a pixel-for-pixel copy: every pixel's displacement is zero and its source
coordinate is itself. -/
theorem warp_constant_centerline_identity (frame : Frame) (bounds : CanvasBounds)
    (hw : frame.width = 640) (hh : frame.height = 480)
    (hlen : frame.data.length = 640 * 480 * 4)
    (hy : bounds.yTop < bounds.yBottom) (hbx : 0 < bounds.x) :
    warp frame
        (some { bounds := bounds
                lineSegments := some [{ x1 := bounds.x, y1 := bounds.yTop,
                                        x2 := bounds.x, y2 := bounds.yBottom }] }) 0
      = frame
    ∧ ∀ x y : ℕ,
        sourceCoords bounds
            [{ x1 := bounds.x, y1 := bounds.yTop, x2 := bounds.x, y2 := bounds.yBottom }] 0
            frame.width frame.height x y
          = ((x : Int), (y : Int)) := by
  have hsrc : ∀ w' h' x y : ℕ,
      sourceCoords bounds
          [{ x1 := bounds.x, y1 := bounds.yTop, x2 := bounds.x, y2 := bounds.yBottom }] 0
          w' h' x y
        = ((x : Int), (y : Int)) := by
    intro w' h' x y
    exact sourceCoords_zero_disp bounds _ w' h' x y (findCurveX_constant_x _ _ _ _)
  refine ⟨?_, fun x y => hsrc frame.width frame.height x y⟩
  rw [warp_cons_segs]
  refine applyDistortion_eq_self frame bounds _ 0 ?_ fun x y hxw hyh => hsrc _ _ x y
  rw [hw, hh, hlen]

/-- Witness for C7 on a concrete all-black 640 by 480 frame with the
scenario bounds. -/
theorem warp_constant_centerline_identity_witness :
    warp { width := 640, height := 480, data := List.replicate (640 * 480 * 4) 0 }
        (some { bounds := { x := 400, yTop := 50, yBottom := 550 }
                lineSegments := some [{ x1 := 400, y1 := 50, x2 := 400, y2 := 550 }] }) 0
      = { width := 640, height := 480, data := List.replicate (640 * 480 * 4) 0 }
    ∧ ∀ x y : ℕ,
        sourceCoords { x := 400, yTop := 50, yBottom := 550 }
            [{ x1 := 400, y1 := 50, x2 := 400, y2 := 550 }] 0 640 480 x y
          = ((x : Int), (y : Int)) :=
  warp_constant_centerline_identity
    { width := 640, height := 480, data := List.replicate (640 * 480 * 4) 0 }
    { x := 400, yTop := 50, yBottom := 550 }
    rfl rfl (List.length_replicate _ _) (by norm_num) (by norm_num)

/-- Claim C4: the per-pixel lookup takes the first segment in input order
whose interval contains curveY, never consulting later matching segments;
with no matching segment the lookup falls back to the centerline bounds.x,
which leaves the pixel undisplaced (shown for the rotation-0 branch). -/
theorem findCurveX_first_match :
    (∀ (pre : List LineSegment) (s : LineSegment) (post : List LineSegment) (bx cy : ℚ),
      (∀ t ∈ pre, ¬ segContains t cy) → segContains s cy →
      findCurveX (pre ++ s :: post) bx cy = segInterp s cy)
    ∧ (∀ (segs : List LineSegment) (bx cy : ℚ),
      (∀ t ∈ segs, ¬ segContains t cy) → findCurveX segs bx cy = bx)
    ∧ (∀ (bounds : CanvasBounds) (segs : List LineSegment) (w h x y : ℕ),
      (∀ t ∈ segs, ¬ segContains t
        (bounds.yTop + ((y : ℚ) / (h : ℚ)) * (bounds.yBottom - bounds.yTop))) →
      sourceCoords bounds segs 0 w h x y = ((x : Int), (y : Int))) := by
  have hnomatch : ∀ (segs : List LineSegment) (bx cy : ℚ),
      (∀ t ∈ segs, ¬ segContains t cy) → findCurveX segs bx cy = bx := by
    intro segs bx cy
    induction segs with
    | nil => intro _; rfl
    | cons hd tl ih =>
      intro hall
      show (if segContains hd cy then segInterp hd cy else findCurveX tl bx cy) = bx
      rw [if_neg (hall hd (List.mem_cons_self hd tl))]
      exact ih fun t ht => hall t (List.mem_cons_of_mem hd ht)
  refine ⟨?_, hnomatch, ?_⟩
  · intro pre s post bx cy
    induction pre with
    | nil =>
      intro _ hs
      show (if segContains s cy then segInterp s cy else findCurveX post bx cy) = segInterp s cy
      rw [if_pos hs]
    | cons hd tl ih =>
      intro hpre hs
      show (if segContains hd cy then segInterp hd cy
        else findCurveX (tl ++ s :: post) bx cy) = segInterp s cy
      rw [if_neg (hpre hd (List.mem_cons_self hd tl))]
      exact ih (fun t ht => hpre t (List.mem_cons_of_mem hd ht)) hs
  · intro bounds segs w h x y hall
    exact sourceCoords_zero_disp bounds segs w h x y (hnomatch segs bounds.x _ hall)

/-- Witness for C4: the second segment is the first match and shadows the
third, a non-matching scan falls back to the centerline, and a pixel with
no matching segment sources from itself. -/
theorem findCurveX_first_match_witness :
    findCurveX [{ x1 := 0, y1 := 20, x2 := 0, y2 := 30 },
                { x1 := 10, y1 := 0, x2 := 20, y2 := 10 },
                { x1 := 5, y1 := 0, x2 := 5, y2 := 10 }] 400 5
      = segInterp { x1 := 10, y1 := 0, x2 := 20, y2 := 10 } 5
    ∧ findCurveX [{ x1 := 0, y1 := 20, x2 := 0, y2 := 30 }] 400 5 = 400
    ∧ sourceCoords { x := 400, yTop := 0, yBottom := 480 }
        [{ x1 := 0, y1 := 20, x2 := 0, y2 := 30 }] 0 640 480 3 7
      = ((3 : Int), (7 : Int)) :=
  ⟨findCurveX_first_match.1 [{ x1 := 0, y1 := 20, x2 := 0, y2 := 30 }]
      { x1 := 10, y1 := 0, x2 := 20, y2 := 10 } [{ x1 := 5, y1 := 0, x2 := 5, y2 := 10 }] 400 5
      (by
        intro t ht
        rw [List.mem_singleton] at ht
        subst ht
        norm_num [segContains, min_def, max_def])
      (by norm_num [segContains, min_def, max_def]),
   findCurveX_first_match.2.1 [{ x1 := 0, y1 := 20, x2 := 0, y2 := 30 }] 400 5
      (by
        intro t ht
        rw [List.mem_singleton] at ht
        subst ht
        norm_num [segContains, min_def, max_def]),
   findCurveX_first_match.2.2 { x := 400, yTop := 0, yBottom := 480 }
      [{ x1 := 0, y1 := 20, x2 := 0, y2 := 30 }] 640 480 3 7
      (by
        intro t ht
        rw [List.mem_singleton] at ht
        subst ht
        norm_num [segContains, min_def, max_def])⟩

/-- Claim C6: an output pixel whose floored source coordinate falls outside
the frame keeps the zeros of the freshly allocated output buffer, and
whenever the bounds check passes, the index read from the source buffer is
below its length — no out-of-bounds read of the source frame is ever
performed. -/
theorem warp_boundary_containment (frame : Frame) (bounds : CanvasBounds)
    (segs : List LineSegment) (rot : Int) (x y c : ℕ)
    (hx : x < frame.width) (hc : c < 4) :
    (¬ inFrame frame.width frame.height
        (sourceCoords bounds segs rot frame.width frame.height x y).1
        (sourceCoords bounds segs rot frame.width frame.height x y).2 →
      outChannel frame bounds segs rot ((y * frame.width + x) * 4 + c) = 0)
    ∧ (inFrame frame.width frame.height
        (sourceCoords bounds segs rot frame.width frame.height x y).1
        (sourceCoords bounds segs rot frame.width frame.height x y).2 →
      frame.data.length = frame.height * frame.width * 4 →
      (((sourceCoords bounds segs rot frame.width frame.height x y).2 * (frame.width : Int)
          + (sourceCoords bounds segs rot frame.width frame.height x y).1) * 4).toNat + c
        < frame.data.length) := by
  have hw : 0 < frame.width := Nat.zero_lt_of_lt hx
  have hdiv : ((y * frame.width + x) * 4 + c) / 4 = y * frame.width + x := by
    rw [Nat.add_comm, Nat.add_mul_div_right _ _ (by norm_num : (0 : ℕ) < 4),
      Nat.div_eq_of_lt hc, Nat.zero_add]
  have hmod : ((y * frame.width + x) * 4 + c) % 4 = c := by
    rw [Nat.add_comm, Nat.add_mul_mod_self_right, Nat.mod_eq_of_lt hc]
  have hxx : (y * frame.width + x) % frame.width = x := by
    rw [Nat.add_comm, Nat.add_mul_mod_self_right, Nat.mod_eq_of_lt hx]
  have hyy : (y * frame.width + x) / frame.width = y := by
    rw [Nat.add_comm, Nat.add_mul_div_right _ _ hw, Nat.div_eq_of_lt hx, Nat.zero_add]
  constructor
  · intro hnot
    simp only [outChannel]
    rw [hdiv, hxx, hyy]
    rw [if_neg hnot]
  · intro hin hlen
    unfold inFrame at hin
    obtain ⟨hsx0, hsxw, hsy0, hsyh⟩ := hin
    obtain ⟨a, ha⟩ := Int.eq_ofNat_of_zero_le hsx0
    obtain ⟨b, hb⟩ := Int.eq_ofNat_of_zero_le hsy0
    rw [ha] at hsxw
    rw [hb] at hsyh
    have haw : a < frame.width := by exact_mod_cast hsxw
    have hbh : b < frame.height := by exact_mod_cast hsyh
    rw [ha, hb, hlen]
    have hcast : (((b : ℕ) : Int) * ((frame.width : ℕ) : Int) + ((a : ℕ) : Int)) * 4
        = (((b * frame.width + a) * 4 : ℕ) : Int) := by
      push_cast
      ring
    rw [hcast, Int.toNat_natCast]
    have hfin : b * frame.width + a + 1 ≤ frame.height * frame.width := by
      have h2 : b * frame.width + frame.width = (b + 1) * frame.width := by ring
      have h3 : (b + 1) * frame.width ≤ frame.height * frame.width :=
        Nat.mul_le_mul_right _ hbh
      omega
    omega

/-- Evaluation of the rotation-0 source coordinates at the out-of-range
witness pixel: the curve pushes the source 12 columns left of column 1. -/
lemma witness_source_eval : sourceCoords { x := 2, yTop := 0, yBottom := 4 }
    [{ x1 := -10, y1 := 0, x2 := -10, y2 := 4 }] 0 4 4 1 2 = ((-11 : Int), (2 : Int)) := by
  have hfind : findCurveX [({ x1 := -10, y1 := 0, x2 := -10, y2 := 4 } : LineSegment)] 2 2
      = -10 := by
    unfold findCurveX
    rw [if_pos (by norm_num [segContains, min_def, max_def])]
    norm_num [segInterp]
  simp only [sourceCoords]
  norm_num [hfind, Prod.mk.injEq]

/-- Witness for C6 on a 4 by 4 frame: the pixel (1, 2) sources from column
-11 and keeps its zero channels, and at rotation 45 the in-range source read
of pixel (1, 2) stays below the buffer length. -/
theorem warp_boundary_containment_witness :
    outChannel { width := 4, height := 4, data := List.replicate 64 0 }
        { x := 2, yTop := 0, yBottom := 4 } [{ x1 := -10, y1 := 0, x2 := -10, y2 := 4 }] 0
        ((2 * 4 + 1) * 4 + 0) = 0
    ∧ (((sourceCoords { x := 2, yTop := 0, yBottom := 4 }
            [{ x1 := -10, y1 := 0, x2 := -10, y2 := 4 }] 45 4 4 1 2).2 * ((4 : ℕ) : Int)
          + (sourceCoords { x := 2, yTop := 0, yBottom := 4 }
            [{ x1 := -10, y1 := 0, x2 := -10, y2 := 4 }] 45 4 4 1 2).1) * 4).toNat + 0
        < (List.replicate 64 (0 : ℕ)).length :=
  ⟨(warp_boundary_containment ⟨4, 4, List.replicate 64 0⟩ ⟨2, 0, 4⟩
      [⟨-10, 0, -10, 4⟩] 0 1 2 0 (by norm_num) (by norm_num)).1
      (by rw [witness_source_eval]; decide),
   (warp_boundary_containment ⟨4, 4, List.replicate 64 0⟩ ⟨2, 0, 4⟩
      [⟨-10, 0, -10, 4⟩] 45 1 2 0 (by norm_num) (by norm_num)).2
      (by decide) (by simp [List.length_replicate])⟩
